import Mathlib

/-!
Verification of the activity-recognition core of the
`activityRecognitionService` repository.

The Python source is shallowly embedded in Lean 4:

* Python `float` values (coordinates, timestamps in seconds, confidences,
  metric values) are modelled as exact rationals `ℚ`.
* `datetime` timestamps are modelled as rational numbers of seconds, so that
  `t2 - t1` corresponds to `(t2 - t1).total_seconds()`.
* The numeric square-root routine `np.sqrt` has no exact rational counterpart,
  so every definition that needs it takes an arbitrary function
  `msqrt : ℚ → ℚ` as a parameter; `np.sqrt (x² + y² + z²)` is embedded as
  `msqrt (x² + y² + z²)`.  No theorem below depends on any property of
  `msqrt`; witnesses instantiate it with a concrete function.
* Python code that can raise an exception is embedded in `Except String`.
  In particular `range(a, b, 0)` raises
  `ValueError: range() arg 3 must not be zero`, which is embedded as an
  `Except.error`.
-/

namespace ARS

/-- Sample data model, from `src/app/models/acceleration.py` —
`AccelerationSample`: one tri-axial accelerometer reading. -/
structure AccelerationSample where
  timestamp : ℚ
  x : ℚ
  y : ℚ
  z : ℚ
deriving DecidableEq, Inhabited

/-- Batch data model, from `src/app/models/acceleration.py` —
`AccelerationData`: the unit of input of the pipeline.  `device_info`,
`metadata` and `id` are carried around but never inspected by the core. -/
structure AccelerationData where
  data_type : String
  device_info : List (String × String)
  sampling_rate_hz : ℤ
  start_time : ℚ
  samples : List AccelerationSample
  metadata : Option (List (String × String)) := none
  id : Option String := none
deriving DecidableEq, Inhabited

/-- Activity label set, from `src/app/models/activity.py` — `ActivityType`,
in declaration order. -/
inductive ActivityType where
  | WALKING
  | RUNNING
  | STANDING
  | SITTING
  | LYING
  | CYCLING
  | UNKNOWN
deriving DecidableEq, Inhabited, Repr

/-- Metrics tuple, from `src/app/models/activity.py` — `ActivityMetrics`. -/
structure ActivityMetrics where
  avg_intensity : ℚ
  peak_intensity : ℚ
  movement_consistency : ℚ
  active_minutes : ℚ
  total_duration : ℚ
deriving DecidableEq, Inhabited

/-- Segment data model, from `src/app/models/activity.py` —
`ActivitySegment`. -/
structure ActivitySegment where
  start_time : ℚ
  end_time : ℚ
  activity_type : ActivityType
  confidence : ℚ
  metrics : ActivityMetrics
deriving DecidableEq, Inhabited

/-- Pattern data model, from `src/app/models/activity.py` —
`ActivityPattern`. -/
structure ActivityPattern where
  pattern_type : String
  description : String
  total_duration : ℚ
  segments : List ActivitySegment
deriving DecidableEq, Inhabited

/-- Request model, from `src/app/models/activity.py` — `ActivityRequest`. -/
structure ActivityRequest where
  acceleration_data : AccelerationData
  include_metrics : Bool := true
  include_patterns : Bool := true
  user_id : String
deriving DecidableEq, Inhabited

/-- Response model, from `src/app/models/activity.py` — `ActivityResponse`. -/
structure ActivityResponse where
  status : String
  message : Option String := none
  activity_segments : List ActivitySegment := []
  activity_patterns : List ActivityPattern := []
  dominant_activity : ActivityType := ActivityType.UNKNOWN
  overall_metrics : Option ActivityMetrics := none
deriving DecidableEq, Inhabited

/-- Mean of a list of rationals (`np.mean`); `0` on the empty list since
`sum [] / 0 = 0` in `ℚ` (the code never takes a mean of an empty window). -/
def meanQ (xs : List ℚ) : ℚ := xs.sum / xs.length

/-- Population variance of a list of rationals (`np.var`). -/
def varQ (xs : List ℚ) : ℚ := ((xs.map (fun v => (v - meanQ xs) ^ 2)).sum) / xs.length

/-- Clamp a rational into the interval `[0, 1]`. -/
def clamp01 (q : ℚ) : ℚ := min 1 (max 0 q)

/-- Zero metrics tuple: every field `0`. -/
def zeroMetrics : ActivityMetrics :=
  { avg_intensity := 0, peak_intensity := 0, movement_consistency := 0,
    active_minutes := 0, total_duration := 0 }

/-- Modelled from the spec: `src/app/utils/metrics.py` (the module providing
`calculate_activity_metrics`, imported by `patterns.py` and `recognition.py`)
is not part of the source tree, so the per-sample intensity is modelled from
spec §4.4: a clamped linear scaling of the magnitude around the 1g
baseline, normalized into `[0, 1]`. -/
def sampleIntensity (msqrt : ℚ → ℚ) (s : AccelerationSample) : ℚ :=
  clamp01 |msqrt (s.x ^ 2 + s.y ^ 2 + s.z ^ 2) - 1|

/-- Modelled from the spec: `src/app/utils/metrics.py` is not part of the
source tree; `calculate_activity_metrics` is modelled from spec §4.4.
Empty sample set gives the zero metric; `avg_intensity` / `peak_intensity`
are the mean / maximum of the per-sample normalized intensities;
`movement_consistency` is the clamped inverse of the intensity variance;
`active_minutes` is the fraction of samples whose intensity exceeds the
movement threshold `1/5`, times the total duration in minutes;
`total_duration` is last-minus-first timestamp in seconds. -/
def calculate_activity_metrics (msqrt : ℚ → ℚ) (data : AccelerationData) : ActivityMetrics :=
  match data.samples with
  | [] => zeroMetrics
  | s :: rest =>
    let samples := s :: rest
    let ints := samples.map (sampleIntensity msqrt)
    let total_duration := (samples.getLastD default).timestamp - s.timestamp
    let activeCount := (ints.filter (fun i => decide ((1 : ℚ)/5 < i))).length
    { avg_intensity := meanQ ints,
      peak_intensity := ints.foldl max 0,
      movement_consistency := clamp01 (1 - varQ ints),
      active_minutes := ((activeCount : ℚ) / (samples.length : ℚ)) * (total_duration / 60),
      total_duration := total_duration }

/-- Feature vector, from `src/app/utils/patterns.py` lines 34–44: the
dictionary built by `extract_features` for one window. -/
structure FeatureVector where
  mean_x : ℚ
  mean_y : ℚ
  mean_z : ℚ
  var_x : ℚ
  var_y : ℚ
  var_z : ℚ
  mean_mag : ℚ
  start_time : ℚ
  end_time : ℚ
deriving DecidableEq, Inhabited

/-- Feature computation for one window, from `src/app/utils/patterns.py`
lines 26–44: per-axis mean and variance, mean magnitude, and the first and
last sample timestamps of the window. -/
def windowFeature (msqrt : ℚ → ℚ) (window : List AccelerationSample) : FeatureVector :=
  { mean_x := meanQ (window.map (·.x)),
    mean_y := meanQ (window.map (·.y)),
    mean_z := meanQ (window.map (·.z)),
    var_x := varQ (window.map (·.x)),
    var_y := varQ (window.map (·.y)),
    var_z := varQ (window.map (·.z)),
    mean_mag := meanQ (window.map (fun s => msqrt (s.x ^ 2 + s.y ^ 2 + s.z ^ 2))),
    start_time := (window.headD default).timestamp,
    end_time := (window.getLastD default).timestamp }

/-- Error message raised by CPython for `range(0, stop, 0)`. -/
def rangeStepZeroMsg : String := "range() arg 3 must not be zero"

/-- Sliding-window feature extraction, from `src/app/utils/patterns.py`
lines 12–48 (`extract_features`).  `window_size = min(20, len(samples))`;
the loop is `for i in range(0, len(samples) - window_size + 1, window_size // 2)`.
Python's `range(0, stop, step)` with `stop ≥ 1` yields the
`(stop - 1) / step + 1` values `0, step, 2·step, …`, and raises `ValueError`
when `step = 0` (which happens exactly when `len(samples) ≤ 1`). -/
def extract_features (msqrt : ℚ → ℚ) (data : AccelerationData) :
    Except String (List FeatureVector) :=
  let samples := data.samples
  let window_size := min 20 samples.length
  if samples.length < window_size then .ok []
  else if window_size / 2 = 0 then .error rangeStepZeroMsg
  else .ok ((List.range' 0 ((samples.length - window_size) / (window_size / 2) + 1)
      (window_size / 2)).map
      (fun i => windowFeature msqrt ((samples.drop i).take window_size)))

/-- Rule-based window classifier, from `src/app/utils/patterns.py`
lines 50–77 (`classify_activity`): the `if/elif` chain, top-down.  (The
`if not features` guard of the Python function concerns an empty feature
dictionary, which is not representable for the record type `FeatureVector`;
the dictionaries produced by `extract_features` always carry all keys.) -/
def classify_activity (f : FeatureVector) : ActivityType × ℚ :=
  if f.mean_mag < 1.05 ∧ f.var_x < 0.01 ∧ f.var_y < 0.01 ∧ f.var_z < 0.01 then
    (ActivityType.STANDING, 0.8)
  else if f.mean_mag < 1.05 ∧ f.var_x < 0.02 ∧ f.var_y < 0.02 ∧ f.var_z < 0.02 then
    (ActivityType.SITTING, 0.8)
  else if f.mean_mag < 1.05 ∧ f.var_x < 0.05 ∧ f.var_y < 0.05 ∧ f.var_z < 0.05 then
    (ActivityType.LYING, 0.7)
  else if 1.1 < f.mean_mag ∧ f.mean_mag < 1.5 ∧
      0.05 < f.var_x + f.var_y + f.var_z ∧ f.var_x + f.var_y + f.var_z < 0.3 then
    (ActivityType.WALKING, 0.9)
  else if f.mean_mag > 1.5 ∧ f.var_x + f.var_y + f.var_z > 0.3 then
    (ActivityType.RUNNING, 0.85)
  else if 1.1 < f.mean_mag ∧ f.mean_mag < 1.8 ∧
      0.1 < f.var_x ∧ f.var_x < 0.5 ∧ 0.1 < f.var_y ∧ f.var_y < 0.5 then
    (ActivityType.CYCLING, 0.75)
  else
    (ActivityType.UNKNOWN, 0.5)

/-- Sub-batch built when a segment is closed, from
`src/app/utils/patterns.py` lines 99–105 and 130–136: the raw samples whose
timestamp lies in the closed interval `[segment_start, upper]`, with
`metadata` and `id` left at their pydantic defaults (`None`). -/
def segmentData (data : AccelerationData) (segment_start upper : ℚ) : AccelerationData :=
  { data_type := data.data_type,
    device_info := data.device_info,
    sampling_rate_hz := data.sampling_rate_hz,
    start_time := segment_start,
    samples := data.samples.filter
      (fun s => decide (segment_start ≤ s.timestamp ∧ s.timestamp ≤ upper)),
    metadata := none,
    id := none }

/-- Segment emitted when the label changes, from `src/app/utils/patterns.py`
lines 97–115: closed at the differing window's `start_time`, carrying the
confidence `c` computed for that differing window. -/
def closedSegment (msqrt : ℚ → ℚ) (data : AccelerationData)
    (activity : ActivityType) (segment_start upper : ℚ) (c : ℚ) : ActivitySegment :=
  { start_time := segment_start,
    end_time := upper,
    activity_type := activity,
    confidence := c,
    metrics := calculate_activity_metrics msqrt (segmentData data segment_start upper) }

/-- Final segment, from `src/app/utils/patterns.py` lines 125–146: closed at
the last accumulated window's `end_time`, with the fixed confidence `0.7`. -/
def finalSegment (msqrt : ℚ → ℚ) (data : AccelerationData)
    (activity : ActivityType) (segment_start last_time : ℚ) : ActivitySegment :=
  { start_time := segment_start,
    end_time := last_time,
    activity_type := activity,
    confidence := 0.7,
    metrics := calculate_activity_metrics msqrt (segmentData data segment_start last_time) }

/-- Segmentation loop, from `src/app/utils/patterns.py` lines 86–148: the
`for features in features_list` loop, with the loop state held in the
Python variables `segments`, `current_activity`, `segment_start`,
`segment_features`, followed by the trailing final-segment code (guarded by
`if current_activity and segment_start and segment_features`). -/
def codeLoop (msqrt : ℚ → ℚ) (data : AccelerationData) :
    List ActivitySegment → Option ActivityType → Option ℚ → List FeatureVector →
    List FeatureVector → List ActivitySegment
  | segments, current_activity, segment_start, segment_features, [] =>
    match current_activity, segment_start, segment_features.getLast? with
    | some ca, some ss, some lastF =>
      segments ++ [finalSegment msqrt data ca ss lastF.end_time]
    | _, _, _ => segments
  | segments, current_activity, segment_start, segment_features, f :: rest =>
    let ac := classify_activity f
    if current_activity ≠ some ac.1 then
      let segments' :=
        match current_activity, segment_start with
        | some ca, some ss => segments ++ [closedSegment msqrt data ca ss f.start_time ac.2]
        | _, _ => segments
      codeLoop msqrt data segments' (some ac.1) (some f.start_time) [f] rest
    else
      codeLoop msqrt data segments current_activity segment_start
        (segment_features ++ [f]) rest

/-- Segmentation of a feature-vector list, from `src/app/utils/patterns.py`
lines 83–148: the early `if not features_list: return []` followed by the
loop starting from the empty state. -/
def segmentsOfFeatures (msqrt : ℚ → ℚ) (data : AccelerationData)
    (features_list : List FeatureVector) : List ActivitySegment :=
  if features_list.isEmpty then []
  else codeLoop msqrt data [] none none [] features_list

/-- Segment detection, from `src/app/utils/patterns.py` lines 79–148
(`detect_activity_segments`): feature extraction followed by the
segmentation loop; an exception raised by `extract_features` propagates. -/
def detect_activity_segments (msqrt : ℚ → ℚ) (data : AccelerationData) :
    Except String (List ActivitySegment) :=
  match extract_features msqrt data with
  | .error e => .error e
  | .ok features_list => .ok (segmentsOfFeatures msqrt data features_list)

/-- Duration of a segment in seconds:
`(s.end_time - s.start_time).total_seconds()`. -/
def durationOf (s : ActivitySegment) : ℚ := s.end_time - s.start_time

/-- Sedentary label test, from `src/app/utils/patterns.py` line 163. -/
def isSedentary (t : ActivityType) : Bool :=
  t = ActivityType.SITTING ∨ t = ActivityType.STANDING ∨ t = ActivityType.LYING

/-- Active label test, from `src/app/utils/patterns.py` line 182. -/
def isActive (t : ActivityType) : Bool :=
  t = ActivityType.WALKING ∨ t = ActivityType.RUNNING ∨ t = ActivityType.CYCLING

/-- Pattern detection, from `src/app/utils/patterns.py` lines 150–209
(`detect_activity_patterns`): three independent checks appending to the
`patterns` list in order sedentary, active, mixed.  The `data` argument is
unused, exactly as in the source. -/
def detect_activity_patterns (_data : AccelerationData)
    (segments : List ActivitySegment) : List ActivityPattern :=
  if segments.isEmpty then []
  else
    let patterns : List ActivityPattern := []
    let sedentary_segments := segments.filter (fun s => isSedentary s.activity_type)
    let patterns :=
      if sedentary_segments.isEmpty then patterns
      else
        let total_sedentary_duration := (sedentary_segments.map durationOf).sum / 60
        if 30 < total_sedentary_duration then
          patterns ++ [{ pattern_type := "sedentary",
                         description := "Extended period of low activity",
                         total_duration := total_sedentary_duration,
                         segments := sedentary_segments }]
        else patterns
    let active_segments := segments.filter (fun s => isActive s.activity_type)
    let patterns :=
      if active_segments.isEmpty then patterns
      else
        let total_active_duration := (active_segments.map durationOf).sum / 60
        if 10 < total_active_duration then
          patterns ++ [{ pattern_type := "active",
                         description := "Period of sustained activity",
                         total_duration := total_active_duration,
                         segments := active_segments }]
        else patterns
    let patterns :=
      if 5 < segments.length then
        let unique_activities := ((segments.map (·.activity_type)).dedup).length
        if 3 ≤ unique_activities then
          patterns ++ [{ pattern_type := "mixed",
                         description := "Varied activity with multiple transitions",
                         total_duration := (segments.map durationOf).sum / 60,
                         segments := segments }]
        else patterns
      else patterns
    patterns

/-- Insertion-ordered duration dictionary update: `duration_by_type` in
`src/app/services/recognition.py` lines 52–60 is a Python `dict`, which
iterates in insertion order; it is embedded as an association list where a
new key is appended at the end. -/
def updateDur : List (ActivityType × ℚ) → ActivityType → ℚ → List (ActivityType × ℚ)
  | [], t, d => [(t, d)]
  | (a, x) :: rest, t, d =>
    if a = t then (a, x + d) :: rest else (a, x) :: updateDur rest t d

/-- Duration-by-type dictionary, from `src/app/services/recognition.py`
lines 52–60. -/
def duration_by_type (segments : List ActivitySegment) : List (ActivityType × ℚ) :=
  segments.foldl (fun acc s => updateDur acc s.activity_type (durationOf s)) []

/-- One step of Python's `max(..., key=lambda x: x[1])`: `max` keeps the
earlier item unless a strictly greater key appears later. -/
def pyMax2 (m q : ActivityType × ℚ) : ActivityType × ℚ := if m.2 < q.2 then q else m

/-- Dominant-activity selector, from `src/app/services/recognition.py`
lines 46–64 (`ActivityRecognitionService._determine_dominant_activity`). -/
def determine_dominant_activity (segments : List ActivitySegment) : ActivityType :=
  if segments.isEmpty then ActivityType.UNKNOWN
  else
    match duration_by_type segments with
    | [] => ActivityType.UNKNOWN
    | p :: rest => (rest.foldl pyMax2 p).1

/-- Top-level recognition, from `src/app/services/recognition.py`
lines 18–44 (`ActivityRecognitionService.recognize_activity`): overall
metrics, segment detection, dominant activity, and (when requested)
patterns; an exception raised by segment detection propagates. -/
def recognize_activity (msqrt : ℚ → ℚ) (request : ActivityRequest) :
    Except String ActivityResponse :=
  let overall_metrics := calculate_activity_metrics msqrt request.acceleration_data
  match detect_activity_segments msqrt request.acceleration_data with
  | .error e => .error e
  | .ok activity_segments =>
    let dominant_activity := determine_dominant_activity activity_segments
    .ok { status := "success",
          message := none,
          activity_segments := activity_segments,
          activity_patterns :=
            if request.include_patterns then
              detect_activity_patterns request.acceleration_data activity_segments
            else [],
          dominant_activity := dominant_activity,
          overall_metrics := some overall_metrics }

/-- Supported labels, from `src/app/services/recognition.py` lines 70–72
(`get_supported_activity_types`): `list(ActivityType)` in declaration
order. -/
def get_supported_activity_types : List ActivityType :=
  [ActivityType.WALKING, ActivityType.RUNNING, ActivityType.STANDING,
   ActivityType.SITTING, ActivityType.LYING, ActivityType.CYCLING,
   ActivityType.UNKNOWN]

/-! Spec-side definitions, written from the words of `spec.md`, to be
compared with the corresponding source-derived definitions. -/

/-- Specification state machine run of §4.3, written from the spec's words:
an open segment `IN_SEGMENT(label)` with its start time and the end time of
the last absorbed window; a window whose classified label matches the open
segment is absorbed, a differing label closes the open segment at the
differing window's `start_time` (with that window's classifier confidence
and metrics over `[segment_start, window.start_time]`) and opens a new
segment at that window's `start_time`; at the end of input the still-open
segment is closed at the last window's `end_time` with fixed confidence
`0.7`. -/
def specRun (msqrt : ℚ → ℚ) (data : AccelerationData) :
    List ActivitySegment → ActivityType → ℚ → ℚ → List FeatureVector →
    List ActivitySegment
  | segs, label, segment_start, last_end, [] =>
    segs ++ [finalSegment msqrt data label segment_start last_end]
  | segs, label, segment_start, _last_end, w :: rest =>
    let tc := classify_activity w
    if tc.1 = label then
      specRun msqrt data segs label segment_start w.end_time rest
    else
      specRun msqrt data
        (segs ++ [closedSegment msqrt data label segment_start w.start_time tc.2])
        tc.1 w.start_time w.end_time rest

/-- Specification segmentation of §4.3, written from the spec's words: an
empty feature sequence yields no segments; otherwise the first window opens
a segment (state `NO_SEGMENT` → `IN_SEGMENT`, no boundary emitted) and the
state machine `specRun` consumes the remaining windows. -/
def specSegments (msqrt : ℚ → ℚ) (data : AccelerationData) :
    List FeatureVector → List ActivitySegment
  | [] => []
  | w :: rest =>
    specRun msqrt data [] (classify_activity w).1 w.start_time w.end_time rest

/-- First-match-wins evaluation of an ordered rule table, written from the
spec's words (§4.2, §9): the first rule whose predicate holds gives the
result; if none matches the result is `(UNKNOWN, 0.5)`. -/
def firstMatch : List ((FeatureVector → Bool) × ActivityType × ℚ) → FeatureVector →
    ActivityType × ℚ
  | [], _ => (ActivityType.UNKNOWN, 0.5)
  | (p, t, c) :: rest, f => if p f then (t, c) else firstMatch rest f

/-- Classifier rule table of §4.2 of the spec, in priority order. -/
def ruleTable : List ((FeatureVector → Bool) × ActivityType × ℚ) :=
  [(fun f => decide (f.mean_mag < 1.05 ∧ f.var_x < 0.01 ∧ f.var_y < 0.01 ∧ f.var_z < 0.01),
    ActivityType.STANDING, 0.8),
   (fun f => decide (f.mean_mag < 1.05 ∧ f.var_x < 0.02 ∧ f.var_y < 0.02 ∧ f.var_z < 0.02),
    ActivityType.SITTING, 0.8),
   (fun f => decide (f.mean_mag < 1.05 ∧ f.var_x < 0.05 ∧ f.var_y < 0.05 ∧ f.var_z < 0.05),
    ActivityType.LYING, 0.7),
   (fun f => decide (1.1 < f.mean_mag ∧ f.mean_mag < 1.5 ∧
      0.05 < f.var_x + f.var_y + f.var_z ∧ f.var_x + f.var_y + f.var_z < 0.3),
    ActivityType.WALKING, 0.9),
   (fun f => decide (1.5 < f.mean_mag ∧ 0.3 < f.var_x + f.var_y + f.var_z),
    ActivityType.RUNNING, 0.85),
   (fun f => decide (1.1 < f.mean_mag ∧ f.mean_mag < 1.8 ∧
      0.1 < f.var_x ∧ f.var_x < 0.5 ∧ 0.1 < f.var_y ∧ f.var_y < 0.5),
    ActivityType.CYCLING, 0.75)]

/-- Total duration, in seconds, of the segments carrying label `t`
(spec §4.5). -/
def totalDur (segments : List ActivitySegment) (t : ActivityType) : ℚ :=
  ((segments.filter (fun s => decide (s.activity_type = t))).map durationOf).sum

/-- Summed duration, in minutes, of the sedentary segments (spec §4.6). -/
def sedentaryMinutes (segments : List ActivitySegment) : ℚ :=
  ((segments.filter (fun s => isSedentary s.activity_type)).map durationOf).sum / 60

/-- Summed duration, in minutes, of the active segments (spec §4.6). -/
def activeMinutes (segments : List ActivitySegment) : ℚ :=
  ((segments.filter (fun s => isActive s.activity_type)).map durationOf).sum / 60

/-- Sedentary pattern of spec §4.6: carries exactly the sedentary segments
and their summed duration in minutes. -/
def sedentaryPattern (segments : List ActivitySegment) : ActivityPattern :=
  { pattern_type := "sedentary",
    description := "Extended period of low activity",
    total_duration := sedentaryMinutes segments,
    segments := segments.filter (fun s => isSedentary s.activity_type) }

/-- Active pattern of spec §4.6: carries exactly the active segments and
their summed duration in minutes. -/
def activePattern (segments : List ActivitySegment) : ActivityPattern :=
  { pattern_type := "active",
    description := "Period of sustained activity",
    total_duration := activeMinutes segments,
    segments := segments.filter (fun s => isActive s.activity_type) }

/-- Mixed pattern of spec §4.6: carries all segments and their combined
duration in minutes. -/
def mixedPattern (segments : List ActivitySegment) : ActivityPattern :=
  { pattern_type := "mixed",
    description := "Varied activity with multiple transitions",
    total_duration := (segments.map durationOf).sum / 60,
    segments := segments }

/-- Mixed-pattern condition of spec §4.6: more than 5 segments and at least
3 distinct labels. -/
def mixedCondition (segments : List ActivitySegment) : Prop :=
  5 < segments.length ∧ 3 ≤ ((segments.map (·.activity_type)).dedup).length

instance (segments : List ActivitySegment) : Decidable (mixedCondition segments) := by
  unfold mixedCondition
  infer_instance

/-! Helper lemmas on the segmentation loop. -/

/-- Once a segment is open, the code loop computes exactly what the spec
state machine computes: the `segment_features` accumulator only ever
contributes the `end_time` of its last element. -/
lemma codeLoop_eq_specRun (msqrt : ℚ → ℚ) (data : AccelerationData) :
    ∀ (rest : List FeatureVector) (segs : List ActivitySegment) (a : ActivityType)
      (ss : ℚ) (sf : List FeatureVector), sf ≠ [] →
      codeLoop msqrt data segs (some a) (some ss) sf rest
        = specRun msqrt data segs a ss ((sf.getLastD default).end_time) rest := by
  intro rest
  induction rest with
  | nil =>
    intro segs a ss sf hsf
    rcases h : sf.getLast? with _ | lastF
    · exact absurd (List.getLast?_eq_none_iff.mp h) hsf
    · simp [codeLoop, specRun, h, List.getLastD_eq_getLast?]
  | cons f rest ih =>
    intro segs a ss sf hsf
    by_cases hc : (classify_activity f).1 = a
    · have hne : ¬ (some a ≠ some (classify_activity f).1) := by simp [hc]
      simp only [codeLoop, if_neg hne]
      rw [ih segs a ss (sf ++ [f]) (by simp)]
      simp [specRun, hc, List.getLastD_concat]
    · have hne : some a ≠ some (classify_activity f).1 := by simp [Ne.symm hc]
      simp only [codeLoop, if_pos hne]
      rw [ih _ (classify_activity f).1 f.start_time [f] (by simp)]
      simp [specRun, hc, List.getLastD]

/-- The source segmentation of a feature list equals the specification
state machine of §4.3. -/
lemma segmentsOfFeatures_eq_spec (msqrt : ℚ → ℚ) (data : AccelerationData)
    (fs : List FeatureVector) :
    segmentsOfFeatures msqrt data fs = specSegments msqrt data fs := by
  cases fs with
  | nil => simp [segmentsOfFeatures, specSegments]
  | cons f rest =>
    have h1 : (none : Option ActivityType) ≠ some (classify_activity f).1 := by simp
    simp only [segmentsOfFeatures, List.isEmpty_cons, Bool.false_eq_true, if_false]
    simp only [codeLoop, if_pos h1]
    rw [codeLoop_eq_specRun msqrt data rest [] (classify_activity f).1 f.start_time [f]
      (by simp)]
    simp [specSegments, List.getLastD]

/-- Claim C2: for every feature-vector sequence the segmentation engine
merges consecutive same-label windows into one segment and emits a boundary
exactly when a window's classified label differs from the open segment's
label — the open segment is then closed with `end_time` equal to the
differing window's `start_time` and metrics over the raw samples in
`[segment_start, window.start_time]`, and a new segment is opened at that
window's `start_time`; a matching window is absorbed; the empty feature
sequence yields the empty segment sequence without error.  Formally, the
source segmentation coincides with the specification state machine
`specSegments`/`specRun` written from the spec's words. -/
theorem C2_segmentation_state_machine (msqrt : ℚ → ℚ) (data : AccelerationData)
    (fs : List FeatureVector) :
    segmentsOfFeatures msqrt data fs = specSegments msqrt data fs ∧
    segmentsOfFeatures msqrt data [] = [] :=
  ⟨segmentsOfFeatures_eq_spec msqrt data fs, rfl⟩

/-- End time of the last window of a run, starting from the end time `le` of
the last window already absorbed. -/
def lastEndFrom : ℚ → List FeatureVector → ℚ
  | le, [] => le
  | _, w :: rest => lastEndFrom w.end_time rest

lemma lastEndFrom_eq_getLastD :
    ∀ (rest : List FeatureVector) (w : FeatureVector),
      lastEndFrom w.end_time rest = ((w :: rest).getLastD default).end_time := by
  intro rest
  induction rest with
  | nil => intro w; rfl
  | cons v rest ih =>
    intro w
    show lastEndFrom v.end_time rest = _
    rw [ih v]
    rfl

/-- The spec state machine always ends by emitting a final segment carrying
confidence `0.7` and ending at the last window's `end_time`. -/
lemma specRun_getLast (msqrt : ℚ → ℚ) (data : AccelerationData) :
    ∀ (rest : List FeatureVector) (segs : List ActivitySegment) (a : ActivityType)
      (ss le : ℚ),
      ∃ a' ss', (specRun msqrt data segs a ss le rest).getLast?
        = some (finalSegment msqrt data a' ss' (lastEndFrom le rest)) := by
  intro rest
  induction rest with
  | nil =>
    intro segs a ss le
    exact ⟨a, ss, by simp [specRun, lastEndFrom, List.getLast?_concat]⟩
  | cons w rest ih =>
    intro segs a ss le
    by_cases hc : (classify_activity w).1 = a
    · simpa [specRun, hc, lastEndFrom] using
        ih segs a ss w.end_time
    · simpa [specRun, hc, lastEndFrom] using
        ih (segs ++ [closedSegment msqrt data a ss w.start_time (classify_activity w).2])
          (classify_activity w).1 w.start_time w.end_time

/-- Claim C3: for every input that yields at least one feature vector, the
last emitted segment is closed with `end_time` equal to the last window's
`end_time` and with confidence exactly `0.7`, regardless of the classifier
confidence of any window of that segment. -/
theorem C3_final_segment_confidence (msqrt : ℚ → ℚ) (data : AccelerationData)
    (fs : List FeatureVector) (hfs : fs ≠ []) :
    ∃ s, (segmentsOfFeatures msqrt data fs).getLast? = some s ∧
      s.confidence = 0.7 ∧ s.end_time = (fs.getLastD default).end_time := by
  rw [segmentsOfFeatures_eq_spec]
  cases fs with
  | nil => exact absurd rfl hfs
  | cons w rest =>
    obtain ⟨a', ss', h⟩ := specRun_getLast msqrt data rest [] (classify_activity w).1
      w.start_time w.end_time
    refine ⟨finalSegment msqrt data a' ss' (lastEndFrom w.end_time rest), h, rfl, ?_⟩
    simpa [finalSegment] using lastEndFrom_eq_getLastD rest w

/-- Segment-to-next-segment relation recorded by the segmentation engine:
some window `w` of the input supplies both the confidence stored on the
earlier segment and the opening data (start time, label) of the later
segment. -/
def linkOf (fs : List FeatureVector) (s t : ActivitySegment) : Prop :=
  ∃ w ∈ fs, s.confidence = (classify_activity w).2 ∧
    t.start_time = w.start_time ∧ t.activity_type = (classify_activity w).1

/-- Every pair of consecutive segments produced by the spec state machine is
related by `linkOf`: the closing window of the earlier segment is the
opening window of the later one. -/
lemma specRun_chain (msqrt : ℚ → ℚ) (data : AccelerationData) (F : List FeatureVector) :
    ∀ (rest : List FeatureVector) (segs : List ActivitySegment) (a : ActivityType)
      (ss le : ℚ),
      (∀ w ∈ rest, w ∈ F) →
      segs.Chain' (linkOf F) →
      (∀ s, segs.getLast? = some s → ∃ w ∈ F, s.confidence = (classify_activity w).2 ∧
        ss = w.start_time ∧ a = (classify_activity w).1) →
      (specRun msqrt data segs a ss le rest).Chain' (linkOf F) := by
  intro rest
  induction rest with
  | nil =>
    intro segs a ss le _ hch hlast
    simp only [specRun]
    refine hch.append (List.chain'_singleton _) ?_
    intro s hs y hy
    simp only [List.head?_cons, Option.mem_def, Option.some.injEq] at hy
    obtain ⟨w, hwF, hconf, hss, ha⟩ := hlast s hs
    exact ⟨w, hwF, hconf, by simp [← hy, finalSegment, hss, ha]⟩
  | cons w rest ih =>
    intro segs a ss le hsub hch hlast
    by_cases hc : (classify_activity w).1 = a
    · simp only [specRun, hc, if_pos rfl]
      exact ih segs a ss w.end_time (fun v hv => hsub v (by simp [hv])) hch hlast
    · simp only [specRun, if_neg hc]
      refine ih _ _ _ _ (fun v hv => hsub v (by simp [hv])) ?_ ?_
      · refine hch.append (List.chain'_singleton _) ?_
        intro s hs y hy
        simp only [List.head?_cons, Option.mem_def, Option.some.injEq] at hy
        obtain ⟨v, hvF, hconf, hss, ha⟩ := hlast s hs
        exact ⟨v, hvF, hconf, by simp [← hy, closedSegment, hss, ha]⟩
      · intro s hs
        rw [List.getLast?_concat] at hs
        refine ⟨w, hsub w (by simp), ?_, rfl, rfl⟩
        simp [← Option.some_inj.mp hs, closedSegment]

/-- The segments produced from a feature list are chained by `linkOf`. -/
lemma segments_chain (msqrt : ℚ → ℚ) (data : AccelerationData) (fs : List FeatureVector) :
    (segmentsOfFeatures msqrt data fs).Chain' (linkOf fs) := by
  rw [segmentsOfFeatures_eq_spec]
  cases fs with
  | nil => simp [specSegments]
  | cons w rest =>
    exact specRun_chain msqrt data (w :: rest) rest [] (classify_activity w).1
      w.start_time w.end_time (fun v hv => by simp [hv]) (by simp)
      (fun s hs => by simp at hs)

/-- Claim C4: the confidence stored on every non-final segment is the
classifier confidence of the differing window that triggered its closure,
which is the first window of the next segment (it supplies the next
segment's `start_time` and label) — not the confidence of any window
belonging to the segment itself. -/
theorem C4_closed_segment_confidence (msqrt : ℚ → ℚ) (data : AccelerationData)
    (fs : List FeatureVector) (i : ℕ)
    (hi : i + 1 < (segmentsOfFeatures msqrt data fs).length) :
    ∃ w ∈ fs,
      ((segmentsOfFeatures msqrt data fs).getD i default).confidence
        = (classify_activity w).2 ∧
      ((segmentsOfFeatures msqrt data fs).getD (i + 1) default).start_time
        = w.start_time ∧
      ((segmentsOfFeatures msqrt data fs).getD (i + 1) default).activity_type
        = (classify_activity w).1 := by
  have hch := segments_chain msqrt data fs
  rw [List.chain'_iff_get] at hch
  have h := hch i (by omega)
  obtain ⟨w, hwF, hconf, hss, ha⟩ := h
  refine ⟨w, hwF, ?_, ?_, ?_⟩
  · rw [List.getD_eq_getElem?_getD, List.getElem?_eq_getElem (by omega)]
    simpa [List.get_eq_getElem] using hconf
  · rw [List.getD_eq_getElem?_getD, List.getElem?_eq_getElem (by omega)]
    simpa [List.get_eq_getElem] using hss
  · rw [List.getD_eq_getElem?_getD, List.getElem?_eq_getElem (by omega)]
    simpa [List.get_eq_getElem] using ha

/-- Classifier confidence is always one of the seven table constants, hence
in `[0, 1]`. -/
lemma classify_confidence_bounds (f : FeatureVector) :
    0 ≤ (classify_activity f).2 ∧ (classify_activity f).2 ≤ 1 := by
  unfold classify_activity
  split_ifs <;> norm_num

/-- Claim C5: `classify_activity` is the top-down, first-match-wins
evaluation of the fixed rule table of §4.2, a total deterministic function
whose confidence always lies in `[0, 1]`. -/
theorem C5_classifier_rule_table (f : FeatureVector) :
    classify_activity f = firstMatch ruleTable f ∧
    0 ≤ (classify_activity f).2 ∧ (classify_activity f).2 ≤ 1 := by
  refine ⟨?_, classify_confidence_bounds f⟩
  simp only [classify_activity, firstMatch, ruleTable, decide_eq_true_eq, gt_iff_lt]

/-- Identity function on `ℚ`, used to instantiate the `msqrt` parameter in
concrete computations. -/
def idQ : ℚ → ℚ := fun q => q

/-- Concrete batch with an empty samples list. -/
def emptyBatch : AccelerationData :=
  { data_type := "accelerometer", device_info := [], sampling_rate_hz := 50,
    start_time := 0, samples := [] }

/-- Concrete request carrying `emptyBatch`. -/
def emptyRequest : ActivityRequest :=
  { acceleration_data := emptyBatch, user_id := "user-1" }

/-- Claim C1 (bug in the code): for every batch with an empty samples list
the pipeline does NOT succeed — `extract_features` computes
`window_size = min(20, 0) = 0`, the guard `len(samples) < window_size` is
false, and `range(0, 1, 0)` raises `ValueError: range() arg 3 must not be
zero`, which `recognize_activity` propagates instead of returning
`status = "success"` with empty segments and zero metrics. -/
theorem C1_empty_input_raises (msqrt : ℚ → ℚ) (request : ActivityRequest)
    (h : request.acceleration_data.samples = []) :
    recognize_activity msqrt request = .error rangeStepZeroMsg := by
  unfold recognize_activity detect_activity_segments extract_features
  simp [h]

/-- Witness for C1: the concrete empty request is rejected with the
`range()` error. -/
theorem C1_empty_input_raises_witness :
    recognize_activity idQ emptyRequest = .error rangeStepZeroMsg :=
  C1_empty_input_raises idQ emptyRequest rfl

/-- Concrete batch with exactly one sample. -/
def oneSampleBatch : AccelerationData :=
  { data_type := "accelerometer", device_info := [], sampling_rate_hz := 50,
    start_time := 0, samples := [{ timestamp := 0, x := 0, y := 0, z := 1 }] }

/-- Counterexample to claim C6 as stated: feature extraction is not
error-free on every sample sequence — on a one-sample batch
`window_size = min(20, 1) = 1`, the step `window_size // 2 = 0`, and
`range(0, 1, 0)` raises `ValueError` instead of producing features. -/
theorem C6_counterexample_one_sample :
    extract_features idQ oneSampleBatch = .error rangeStepZeroMsg := by
  unfold extract_features oneSampleBatch
  simp

/-- Unfolding of `extract_features` on batches with at least two samples:
the guards do not trigger and the windows are enumerated by
`List.range'`. -/
lemma extract_features_ok (msqrt : ℚ → ℚ) (data : AccelerationData)
    (h2 : 2 ≤ data.samples.length) :
    extract_features msqrt data
      = .ok ((List.range' 0
          ((data.samples.length - min 20 data.samples.length)
            / (min 20 data.samples.length / 2) + 1)
          (min 20 data.samples.length / 2)).map
          (fun i => windowFeature msqrt
            ((data.samples.drop i).take (min 20 data.samples.length)))) := by
  unfold extract_features
  have hnlt : ¬ (data.samples.length < min 20 data.samples.length) :=
    not_lt.mpr (min_le_right _ _)
  have hw2 : 2 ≤ min 20 data.samples.length := le_min (by norm_num) h2
  have hstep : ¬ (min 20 data.samples.length / 2 = 0) := by
    have : 1 ≤ min 20 data.samples.length / 2 :=
      (Nat.le_div_iff_mul_le (by norm_num)).mpr (by omega)
    omega
  simp only [hnlt, if_false, hstep]

lemma headD_getD (l : List α) (d : α) : l.headD d = l.getD 0 d := by
  cases l <;> rfl

lemma getLastD_getD (l : List α) (d : α) : l.getLastD d = l.getD (l.length - 1) d := by
  rw [List.getLastD_eq_getLast?, List.getLast?_eq_getElem?]
  simp

/-- Element of a window, as an element of the underlying sample list. -/
lemma take_drop_getD (s : List α) (i w j : ℕ) (d : α) (hj : j < w)
    (hiw : i + w ≤ s.length) :
    ((s.drop i).take w).getD j d = s.getD (i + j) d := by
  have hlen : j < ((s.drop i).take w).length := by
    simp only [List.length_take, List.length_drop]
    omega
  have hs : i + j < s.length := by omega
  rw [List.getD_eq_getElem?_getD, List.getElem?_eq_getElem hlen,
    List.getD_eq_getElem?_getD, List.getElem?_eq_getElem hs]
  simp [List.getElem_take, List.getElem_drop]

/-- Length of a fully fitting window. -/
lemma take_drop_length (s : List α) (i w : ℕ) (hiw : i + w ≤ s.length) :
    ((s.drop i).take w).length = w := by
  simp only [List.length_take, List.length_drop]
  omega

/-- Claim C6 (amended to batches of at least two samples; for 0 or 1
samples `extract_features` raises `ValueError` — see
`C6_counterexample_one_sample`): feature extraction uses
`window_size = min(20, len(samples))`; successive windows start
`window_size // 2` samples apart; every produced window is exactly
`window_size` consecutive samples; the last fully fitting window is the
final one and trailing samples are dropped silently; each feature vector is
the `windowFeature` of its window, with `start_time`/`end_time` the first
and last sample timestamps of the window. -/
theorem C6_windowing (msqrt : ℚ → ℚ) (data : AccelerationData)
    (h2 : 2 ≤ data.samples.length) :
    ∃ fs, extract_features msqrt data = .ok fs ∧
      fs.length = (data.samples.length - min 20 data.samples.length)
          / (min 20 data.samples.length / 2) + 1 ∧
      (fs.length - 1) * (min 20 data.samples.length / 2) + min 20 data.samples.length
          ≤ data.samples.length ∧
      data.samples.length
          < fs.length * (min 20 data.samples.length / 2) + min 20 data.samples.length ∧
      ∀ k < fs.length,
        ((data.samples.drop (k * (min 20 data.samples.length / 2))).take
            (min 20 data.samples.length)).length = min 20 data.samples.length ∧
        fs.getD k default = windowFeature msqrt
          ((data.samples.drop (k * (min 20 data.samples.length / 2))).take
            (min 20 data.samples.length)) ∧
        (fs.getD k default).start_time
          = (data.samples.getD (k * (min 20 data.samples.length / 2)) default).timestamp ∧
        (fs.getD k default).end_time
          = (data.samples.getD (k * (min 20 data.samples.length / 2)
              + (min 20 data.samples.length - 1)) default).timestamp := by
  refine ⟨_, extract_features_ok msqrt data h2, ?_⟩
  set n := data.samples.length with hn
  set w := min 20 n with hw
  set step := w / 2 with hstepdef
  have hwn : w ≤ n := min_le_right _ _
  have hw2 : 2 ≤ w := le_min (by norm_num) h2
  have hstep1 : 1 ≤ step := (Nat.le_div_iff_mul_le (by norm_num)).mpr (by omega)
  have hlen : ((List.range' 0 ((n - w) / step + 1) step).map
      (fun i => windowFeature msqrt ((data.samples.drop i).take w))).length
      = (n - w) / step + 1 := by
    simp
  refine ⟨hlen, ?_, ?_, ?_⟩
  · rw [hlen]
    simp only [Nat.add_sub_cancel]
    have : (n - w) / step * step ≤ n - w := Nat.div_mul_le_self _ _
    omega
  · rw [hlen]
    have hmod := Nat.div_add_mod (n - w) step
    have hr : (n - w) % step < step := Nat.mod_lt _ (by omega)
    have : n - w < ((n - w) / step + 1) * step := by
      calc n - w = step * ((n - w) / step) + (n - w) % step := hmod.symm
        _ < step * ((n - w) / step) + step := Nat.add_lt_add_left hr _
        _ = ((n - w) / step + 1) * step := by ring
    omega
  · intro k hk
    rw [hlen] at hk
    have hik : k * step + w ≤ n := by
      have hk1 : k ≤ (n - w) / step := by omega
      have h1 : k * step ≤ (n - w) / step * step := Nat.mul_le_mul_right _ hk1
      have h2' : (n - w) / step * step ≤ n - w := Nat.div_mul_le_self _ _
      omega
    have hkmap : (((List.range' 0 ((n - w) / step + 1) step).map
        (fun i => windowFeature msqrt ((data.samples.drop i).take w)))).getD k default
        = windowFeature msqrt ((data.samples.drop (k * step)).take w) := by
      have hklen : k < ((List.range' 0 ((n - w) / step + 1) step).map
          (fun i => windowFeature msqrt ((data.samples.drop i).take w))).length := by
        rw [hlen]; exact hk
      rw [List.getD_eq_getElem?_getD, List.getElem?_eq_getElem hklen]
      simp [List.getElem_range', Nat.mul_comm]
    have hwin := take_drop_length data.samples (k * step) w hik
    refine ⟨hwin, hkmap, ?_, ?_⟩
    · rw [hkmap]
      show ((((data.samples.drop (k * step)).take w)).headD default).timestamp = _
      rw [headD_getD, take_drop_getD data.samples (k * step) w 0 default (by omega) hik,
        Nat.add_zero]
    · rw [hkmap]
      show ((((data.samples.drop (k * step)).take w)).getLastD default).timestamp = _
      rw [getLastD_getD, hwin,
        take_drop_getD data.samples (k * step) w (w - 1) default (by omega) hik]

/-- Concrete batch with exactly two samples. -/
def twoSampleBatch : AccelerationData :=
  { data_type := "accelerometer", device_info := [], sampling_rate_hz := 50,
    start_time := 0,
    samples := [{ timestamp := 0, x := 0, y := 0, z := 1 },
                { timestamp := 1, x := 0, y := 0, z := 1 }] }

/-- Witness for C6: on the concrete two-sample batch the hypothesis holds
and extraction succeeds with a single window of size two. -/
theorem C6_windowing_witness :
    2 ≤ twoSampleBatch.samples.length ∧
    ∃ fs, extract_features idQ twoSampleBatch = .ok fs ∧ fs.length = 1 := by
  refine ⟨by decide, ?_⟩
  obtain ⟨fs, hok, hlen, -⟩ := C6_windowing idQ twoSampleBatch (by decide)
  exact ⟨fs, hok, by simpa using hlen⟩

/-- First pattern-append step of `detect_activity_patterns`: guarding on
non-emptiness of the filtered list is redundant, because an empty filtered
list has summed duration `0`, which never exceeds a positive threshold. -/
lemma pattern_append_step (X : List ActivityPattern) (l : List ActivitySegment)
    (c : ℚ) (hc : 0 < c) (p : ActivityPattern) :
    (if l.isEmpty then X
     else if c < (l.map durationOf).sum / 60 then X ++ [p] else X)
      = X ++ (if c < (l.map durationOf).sum / 60 then [p] else []) := by
  by_cases h : l.isEmpty
  · have hl : l = [] := List.isEmpty_iff.mp h
    subst hl
    simp [not_lt.mpr hc.le]
  · simp only [h, if_false, Bool.false_eq_true]
    by_cases h2 : c < (l.map durationOf).sum / 60 <;> simp [h2]

/-- Mixed-pattern step: the nested count tests equal the single conjunctive
condition. -/
lemma pattern_mixed_step (X : List ActivityPattern) (n u : ℕ) (p : ActivityPattern) :
    (if 5 < n then (if 3 ≤ u then X ++ [p] else X) else X)
      = X ++ (if 5 < n ∧ 3 ≤ u then [p] else []) := by
  split_ifs <;> simp_all

/-- Claim C8: pattern detection performs three independent, non-exclusive
checks and emits the matching patterns in the fixed order sedentary,
active, mixed: a sedentary pattern carrying exactly the SITTING / STANDING
/ LYING segments iff their summed duration exceeds 30 minutes, an active
pattern carrying exactly the WALKING / RUNNING / CYCLING segments iff their
summed duration exceeds 10 minutes, and a mixed pattern carrying all
segments iff there are more than 5 segments with at least 3 distinct
labels; the empty segment sequence yields the empty pattern list. -/
theorem C8_pattern_detection (data : AccelerationData)
    (segments : List ActivitySegment) :
    detect_activity_patterns data segments =
      (if 30 < sedentaryMinutes segments then [sedentaryPattern segments] else []) ++
      (if 10 < activeMinutes segments then [activePattern segments] else []) ++
      (if mixedCondition segments then [mixedPattern segments] else []) := by
  by_cases hempty : segments.isEmpty
  · have hl : segments = [] := List.isEmpty_iff.mp hempty
    subst hl
    simp [detect_activity_patterns, sedentaryMinutes, activeMinutes, mixedCondition]
  · simp only [detect_activity_patterns, hempty, Bool.false_eq_true, if_false]
    rw [pattern_append_step [] (segments.filter (fun s => isSedentary s.activity_type))
        30 (by norm_num) _,
      pattern_append_step _ (segments.filter (fun s => isActive s.activity_type))
        10 (by norm_num) _,
      pattern_mixed_step]
    simp only [List.nil_append, List.append_assoc]
    rfl

/-- Concrete feature vector classified as `(STANDING, 0.8)`. -/
def fvStanding : FeatureVector :=
  { mean_x := 0, mean_y := 0, mean_z := 1, var_x := 0, var_y := 0, var_z := 0,
    mean_mag := 1, start_time := 0, end_time := 1 }

/-- Concrete feature vector classified as `(RUNNING, 0.85)`. -/
def fvRunning : FeatureVector :=
  { mean_x := 0, mean_y := 0, mean_z := 2, var_x := 1, var_y := 0, var_z := 0,
    mean_mag := 2, start_time := 1, end_time := 2 }

lemma classify_fvStanding : classify_activity fvStanding = (ActivityType.STANDING, 0.8) := by
  unfold classify_activity fvStanding
  norm_num

lemma classify_fvRunning : classify_activity fvRunning = (ActivityType.RUNNING, 0.85) := by
  unfold classify_activity fvRunning
  norm_num

/-- Witness for C3: a one-feature input yields a last segment with
confidence `0.7` ending at that window's `end_time`. -/
theorem C3_final_segment_confidence_witness :
    ([fvStanding] : List FeatureVector) ≠ [] ∧
    ∃ s, (segmentsOfFeatures idQ emptyBatch [fvStanding]).getLast? = some s ∧
      s.confidence = 0.7 ∧
      s.end_time = (([fvStanding] : List FeatureVector).getLastD default).end_time :=
  ⟨by simp, C3_final_segment_confidence idQ emptyBatch [fvStanding] (by simp)⟩

/-- Evaluation of the segmentation on the two-feature list
`[fvStanding, fvRunning]`: one closed segment (carrying the RUNNING
window's confidence `0.85`) and one final segment. -/
lemma segmentsOfFeatures_two_eval :
    segmentsOfFeatures idQ emptyBatch [fvStanding, fvRunning]
      = [closedSegment idQ emptyBatch ActivityType.STANDING 0 1 0.85,
         finalSegment idQ emptyBatch ActivityType.RUNNING 1 2] := by
  simp only [segmentsOfFeatures, List.isEmpty_cons, Bool.false_eq_true, if_false,
    codeLoop, classify_fvStanding, classify_fvRunning]
  norm_num [fvStanding, fvRunning]
  simp

/-- Witness for C4: on `[fvStanding, fvRunning]` there are two segments,
and the first (non-final) segment stores the classifier confidence of the
window that opened the second segment. -/
theorem C4_closed_segment_confidence_witness :
    0 + 1 < (segmentsOfFeatures idQ emptyBatch [fvStanding, fvRunning]).length ∧
    ∃ w ∈ [fvStanding, fvRunning],
      ((segmentsOfFeatures idQ emptyBatch [fvStanding, fvRunning]).getD 0
          default).confidence = (classify_activity w).2 ∧
      ((segmentsOfFeatures idQ emptyBatch [fvStanding, fvRunning]).getD (0 + 1)
          default).start_time = w.start_time ∧
      ((segmentsOfFeatures idQ emptyBatch [fvStanding, fvRunning]).getD (0 + 1)
          default).activity_type = (classify_activity w).1 := by
  have hlen : 0 + 1 < (segmentsOfFeatures idQ emptyBatch [fvStanding, fvRunning]).length := by
    rw [segmentsOfFeatures_two_eval]
    norm_num
  exact ⟨hlen,
    C4_closed_segment_confidence idQ emptyBatch [fvStanding, fvRunning] 0 hlen⟩

/-! Bound lemmas for the (spec-modelled) metrics calculator. -/

lemma clamp01_bounds (q : ℚ) : 0 ≤ clamp01 q ∧ clamp01 q ≤ 1 :=
  ⟨le_min (by norm_num) (le_max_left 0 q), min_le_left _ _⟩

lemma meanQ_bounds (xs : List ℚ) (hne : xs ≠ [])
    (h0 : ∀ x ∈ xs, 0 ≤ x) (h1 : ∀ x ∈ xs, x ≤ 1) :
    0 ≤ meanQ xs ∧ meanQ xs ≤ 1 := by
  have hlen : (0 : ℚ) < xs.length := by
    have : xs.length ≠ 0 := fun h => hne (List.length_eq_zero.mp h)
    positivity
  unfold meanQ
  constructor
  · exact div_nonneg (List.sum_nonneg h0) hlen.le
  · rw [div_le_one hlen]
    calc xs.sum ≤ xs.length • (1 : ℚ) := List.sum_le_card_nsmul xs 1 h1
      _ = xs.length := by simp

lemma foldl_max_bounds :
    ∀ (xs : List ℚ) (a : ℚ), 0 ≤ a → a ≤ 1 → (∀ x ∈ xs, x ≤ 1) →
      0 ≤ xs.foldl max a ∧ xs.foldl max a ≤ 1 := by
  intro xs
  induction xs with
  | nil => intro a h0 h1 _; exact ⟨h0, h1⟩
  | cons x xs ih =>
    intro a h0 h1 hx
    exact ih (max a x) (le_trans h0 (le_max_left a x))
      (max_le h1 (hx x (by simp))) (fun y hy => hx y (by simp [hy]))

lemma getLastD_mem_cons : ∀ (l : List α) (a d : α), (a :: l).getLastD d ∈ a :: l := by
  intro l
  induction l with
  | nil => intro a d; simp [List.getLastD]
  | cons b l ih =>
    intro a d
    rw [List.getLastD_cons]
    exact List.mem_cons_of_mem a (ih b a)

/-- First-to-last timestamp difference is nonnegative on a sorted list. -/
lemma sorted_head_le_getLastD (s : AccelerationSample) (rest : List AccelerationSample)
    (hs : (s :: rest).Pairwise (fun a b => a.timestamp ≤ b.timestamp)) :
    s.timestamp ≤ ((s :: rest).getLastD default).timestamp := by
  rcases List.mem_cons.mp (getLastD_mem_cons rest s default) with h | h
  · rw [h]
  · exact (List.pairwise_cons.mp hs).1 _ h

/-- Claim C9 (metrics calculator modelled from the spec, the module being
absent from the source tree): all three intensity-style metrics lie in
`[0, 1]`, `active_minutes` and `total_duration` are nonnegative (under the
data-model invariant that samples are non-decreasing in time), the empty
sample set yields the zero metric without any division error, and
`total_duration` is last-minus-first timestamp in seconds — hence `0` for
batches of 0 or 1 samples. -/
theorem C9_metrics_bounds (msqrt : ℚ → ℚ) (data : AccelerationData)
    (hsort : data.samples.Pairwise (fun a b => a.timestamp ≤ b.timestamp)) :
    0 ≤ (calculate_activity_metrics msqrt data).avg_intensity ∧
    (calculate_activity_metrics msqrt data).avg_intensity ≤ 1 ∧
    0 ≤ (calculate_activity_metrics msqrt data).peak_intensity ∧
    (calculate_activity_metrics msqrt data).peak_intensity ≤ 1 ∧
    0 ≤ (calculate_activity_metrics msqrt data).movement_consistency ∧
    (calculate_activity_metrics msqrt data).movement_consistency ≤ 1 ∧
    0 ≤ (calculate_activity_metrics msqrt data).active_minutes ∧
    0 ≤ (calculate_activity_metrics msqrt data).total_duration ∧
    (data.samples = [] → calculate_activity_metrics msqrt data = zeroMetrics) ∧
    (calculate_activity_metrics msqrt data).total_duration
      = (data.samples.getLastD default).timestamp
        - (data.samples.headD default).timestamp ∧
    (data.samples.length ≤ 1 → (calculate_activity_metrics msqrt data).total_duration = 0) := by
  rcases hsam : data.samples with _ | ⟨s, rest⟩
  · have hc : calculate_activity_metrics msqrt data = zeroMetrics := by
      unfold calculate_activity_metrics
      rw [hsam]
    rw [hc]
    norm_num [zeroMetrics]
  · have hc : calculate_activity_metrics msqrt data =
        { avg_intensity := meanQ ((s :: rest).map (sampleIntensity msqrt)),
          peak_intensity := ((s :: rest).map (sampleIntensity msqrt)).foldl max 0,
          movement_consistency :=
            clamp01 (1 - varQ ((s :: rest).map (sampleIntensity msqrt))),
          active_minutes :=
            ((((s :: rest).map (sampleIntensity msqrt)).filter
                (fun i => decide ((1 : ℚ)/5 < i))).length : ℚ)
              / ((s :: rest).length : ℚ)
              * (((((s :: rest).getLastD default).timestamp - s.timestamp)) / 60),
          total_duration := ((s :: rest).getLastD default).timestamp - s.timestamp } := by
      unfold calculate_activity_metrics
      rw [hsam]
    have hsort' : (s :: rest).Pairwise (fun a b => a.timestamp ≤ b.timestamp) := by
      rw [← hsam]; exact hsort
    have h0 : ∀ x ∈ (s :: rest).map (sampleIntensity msqrt), 0 ≤ x := by
      intro x hx
      obtain ⟨u, -, rfl⟩ := List.mem_map.mp hx
      exact (clamp01_bounds _).1
    have h1 : ∀ x ∈ (s :: rest).map (sampleIntensity msqrt), x ≤ 1 := by
      intro x hx
      obtain ⟨u, -, rfl⟩ := List.mem_map.mp hx
      exact (clamp01_bounds _).2
    have havg := meanQ_bounds ((s :: rest).map (sampleIntensity msqrt)) (by simp) h0 h1
    have hpeak := foldl_max_bounds ((s :: rest).map (sampleIntensity msqrt)) 0
      le_rfl (by norm_num) h1
    have htot : 0 ≤ ((s :: rest).getLastD default).timestamp - s.timestamp :=
      sub_nonneg.mpr (sorted_head_le_getLastD s rest hsort')
    have hcons := clamp01_bounds (1 - varQ ((s :: rest).map (sampleIntensity msqrt)))
    rw [hc]
    refine ⟨havg.1, havg.2, hpeak.1, hpeak.2, hcons.1, hcons.2, ?_, htot, ?_, ?_, ?_⟩
    · exact mul_nonneg (div_nonneg (Nat.cast_nonneg _) (Nat.cast_nonneg _))
        (div_nonneg htot (by norm_num))
    · intro h; exact absurd h (List.cons_ne_nil s rest)
    · simp
    · intro hlen
      have hrest : rest = [] := by
        simp only [List.length_cons] at hlen
        exact List.length_eq_zero.mp (by omega)
      subst hrest
      simp [List.getLastD_cons]

/-- Witness for C9: the two-sample batch is sorted and satisfies the metric
bounds; its total duration is the last-minus-first timestamp. -/
theorem C9_metrics_bounds_witness :
    twoSampleBatch.samples.Pairwise (fun a b => a.timestamp ≤ b.timestamp) ∧
    0 ≤ (calculate_activity_metrics idQ twoSampleBatch).avg_intensity ∧
    (calculate_activity_metrics idQ twoSampleBatch).total_duration
      = (twoSampleBatch.samples.getLastD default).timestamp
        - (twoSampleBatch.samples.headD default).timestamp := by
  have hs : twoSampleBatch.samples.Pairwise (fun a b => a.timestamp ≤ b.timestamp) := by
    norm_num [twoSampleBatch, List.pairwise_cons]
  obtain ⟨h1, -, -, -, -, -, -, -, -, h10, -⟩ := C9_metrics_bounds idQ twoSampleBatch hs
  exact ⟨hs, h1, h10⟩

/-! Development for claim C10: segment well-formedness invariants. -/

/-- Well-formedness of one emitted segment: ordered bounds, confidence in
`[0, 1]`, and a label from the closed 7-label set. -/
def segGood (s : ActivitySegment) : Prop :=
  s.start_time ≤ s.end_time ∧ 0 ≤ s.confidence ∧ s.confidence ≤ 1 ∧
    s.activity_type ∈ get_supported_activity_types

lemma mem_supported (t : ActivityType) : t ∈ get_supported_activity_types := by
  cases t <;> simp [get_supported_activity_types]

/-- The spec state machine preserves segment well-formedness and emits
segments in non-decreasing order of `start_time`, provided the remaining
windows start no earlier than the open segment and are themselves ordered. -/
lemma specRun_good (msqrt : ℚ → ℚ) (data : AccelerationData) :
    ∀ (rest : List FeatureVector) (segs : List ActivitySegment) (a : ActivityType)
      (ss le : ℚ),
      (∀ s ∈ segs, segGood s) →
      segs.Pairwise (fun s t => s.start_time ≤ t.start_time) →
      (∀ s ∈ segs, s.start_time ≤ ss) →
      ss ≤ le →
      (∀ w ∈ rest, ss ≤ w.start_time) →
      rest.Pairwise (fun v w => v.start_time ≤ w.start_time) →
      (∀ w ∈ rest, w.start_time ≤ w.end_time) →
      (∀ s ∈ specRun msqrt data segs a ss le rest, segGood s) ∧
      (specRun msqrt data segs a ss le rest).Pairwise
        (fun s t => s.start_time ≤ t.start_time) := by
  intro rest
  induction rest with
  | nil =>
    intro segs a ss le hsegs hpair hbound hssle _ _ _
    simp only [specRun]
    constructor
    · intro s hs
      rcases List.mem_append.mp hs with h | h
      · exact hsegs s h
      · rcases List.mem_singleton.mp h with rfl
        exact ⟨hssle, by norm_num [finalSegment], by norm_num [finalSegment],
          mem_supported _⟩
    · rw [List.pairwise_append]
      exact ⟨hpair, List.pairwise_singleton _ _,
        fun s hs t ht => by
          rcases List.mem_singleton.mp ht with rfl
          exact hbound s hs⟩
  | cons w rest ih =>
    intro segs a ss le hsegs hpair hbound hssle hrest1 hrest2 hrest3
    obtain ⟨hw2, hrest2'⟩ := List.pairwise_cons.mp hrest2
    have hws : ss ≤ w.start_time := hrest1 w (by simp)
    have hwe : w.start_time ≤ w.end_time := hrest3 w (by simp)
    by_cases hc : (classify_activity w).1 = a
    · simp only [specRun, hc, if_pos rfl]
      exact ih segs a ss w.end_time hsegs hpair hbound (le_trans hws hwe)
        (fun v hv => hrest1 v (by simp [hv])) hrest2'
        (fun v hv => hrest3 v (by simp [hv]))
    · simp only [specRun, if_neg hc]
      have hclosed : segGood (closedSegment msqrt data a ss w.start_time
          (classify_activity w).2) := by
        refine ⟨hws, ?_, ?_, mem_supported _⟩
        · exact (classify_confidence_bounds w).1
        · exact (classify_confidence_bounds w).2
      refine ih _ (classify_activity w).1 w.start_time w.end_time ?_ ?_ ?_ hwe hw2
        hrest2' (fun v hv => hrest3 v (by simp [hv]))
      · intro s hs
        rcases List.mem_append.mp hs with h | h
        · exact hsegs s h
        · rcases List.mem_singleton.mp h with rfl
          exact hclosed
      · rw [List.pairwise_append]
        exact ⟨hpair, List.pairwise_singleton _ _,
          fun s hs t ht => by
            rcases List.mem_singleton.mp ht with rfl
            exact hbound s hs⟩
      · intro s hs
        rcases List.mem_append.mp hs with h | h
        · exact le_trans (hbound s h) hws
        · rcases List.mem_singleton.mp h with rfl
          exact hws

/-- Well-formedness of the segments of a feature list whose windows are
ordered. -/
lemma segmentsOfFeatures_good (msqrt : ℚ → ℚ) (data : AccelerationData)
    (fs : List FeatureVector)
    (hf1 : ∀ f ∈ fs, f.start_time ≤ f.end_time)
    (hf2 : fs.Pairwise (fun v w => v.start_time ≤ w.start_time)) :
    (∀ s ∈ segmentsOfFeatures msqrt data fs, segGood s) ∧
    (segmentsOfFeatures msqrt data fs).Pairwise
      (fun s t => s.start_time ≤ t.start_time) := by
  rw [segmentsOfFeatures_eq_spec]
  cases fs with
  | nil => simp [specSegments]
  | cons w rest =>
    obtain ⟨hw2, hrest2⟩ := List.pairwise_cons.mp hf2
    exact specRun_good msqrt data rest [] (classify_activity w).1 w.start_time
      w.end_time (by simp) (by simp) (by simp) (hf1 w (by simp)) hw2 hrest2
      (fun v hv => hf1 v (by simp [hv]))

lemma sorted_getD_le (s : List AccelerationSample)
    (hs : s.Pairwise (fun a b => a.timestamp ≤ b.timestamp))
    (i j : ℕ) (hij : i ≤ j) (hj : j < s.length) :
    (s.getD i default).timestamp ≤ (s.getD j default).timestamp := by
  rcases eq_or_lt_of_le hij with rfl | hlt
  · exact le_rfl
  · have hi : i < s.length := lt_trans hlt hj
    rw [List.getD_eq_getElem?_getD, List.getElem?_eq_getElem hi,
      List.getD_eq_getElem?_getD, List.getElem?_eq_getElem hj]
    exact List.pairwise_iff_getElem.mp hs i j hi hj hlt

/-- Start and end times of one extracted window, as sample timestamps. -/
lemma windowFeature_times (msqrt : ℚ → ℚ) (s : List AccelerationSample)
    (i w : ℕ) (hw : 1 ≤ w) (hiw : i + w ≤ s.length) :
    (windowFeature msqrt ((s.drop i).take w)).start_time
      = (s.getD i default).timestamp ∧
    (windowFeature msqrt ((s.drop i).take w)).end_time
      = (s.getD (i + (w - 1)) default).timestamp := by
  constructor
  · show (((s.drop i).take w).headD default).timestamp = _
    rw [headD_getD, take_drop_getD s i w 0 default (by omega) hiw, Nat.add_zero]
  · show (((s.drop i).take w).getLastD default).timestamp = _
    rw [getLastD_getD, take_drop_length s i w hiw,
      take_drop_getD s i w (w - 1) default (by omega) hiw]

lemma range_index_bound (n w step k : ℕ) (hw : w ≤ n) (_hstep : 1 ≤ step)
    (hk : k < (n - w) / step + 1) : step * k + w ≤ n := by
  have hk1 : k ≤ (n - w) / step := by omega
  have h1 : step * k ≤ step * ((n - w) / step) := Nat.mul_le_mul_left _ hk1
  have h2 : step * ((n - w) / step) ≤ n - w := by
    rw [Nat.mul_comm]
    exact Nat.div_mul_le_self _ _
  omega

/-- On a time-sorted batch, the extracted feature list has ordered windows:
each window's `start_time` is at most its `end_time`, and start times are
non-decreasing across windows. -/
lemma extract_sorted_facts (msqrt : ℚ → ℚ) (data : AccelerationData)
    (fs : List FeatureVector)
    (hsort : data.samples.Pairwise (fun a b => a.timestamp ≤ b.timestamp))
    (hok : extract_features msqrt data = .ok fs) :
    (∀ f ∈ fs, f.start_time ≤ f.end_time) ∧
    fs.Pairwise (fun v w => v.start_time ≤ w.start_time) := by
  by_cases h2 : 2 ≤ data.samples.length
  case neg =>
    exfalso
    unfold extract_features at hok
    have hmin : min 20 data.samples.length = data.samples.length := by omega
    have hlt : ¬ (data.samples.length < min 20 data.samples.length) := by omega
    have hstep : min 20 data.samples.length / 2 = 0 := by omega
    rw [if_neg hlt, if_pos hstep] at hok
    exact Except.noConfusion hok
  case pos =>
    rw [extract_features_ok msqrt data h2] at hok
    have hfs := (Except.ok.injEq _ _).mp hok
    subst hfs
    set n := data.samples.length with hn
    set w := min 20 n with hwdef
    set step := w / 2 with hstepdef
    have hwn : w ≤ n := min_le_right _ _
    have hw2 : 2 ≤ w := le_min (by norm_num) h2
    have hstep1 : 1 ≤ step := (Nat.le_div_iff_mul_le (by norm_num)).mpr (by omega)
    constructor
    · intro f hf
      obtain ⟨i, hi, rfl⟩ := List.mem_map.mp hf
      obtain ⟨k, hk, rfl⟩ := List.mem_range'.mp hi
      have hik : step * k + w ≤ n := range_index_bound n w step k hwn hstep1 hk
      obtain ⟨hstart, hend⟩ := windowFeature_times msqrt data.samples (0 + step * k) w
        (by omega) (by omega)
      rw [hstart, hend]
      exact sorted_getD_le data.samples hsort _ _ (by omega) (by omega)
    · rw [List.pairwise_map]
      rw [List.pairwise_iff_getElem]
      intro i j hi hj hij
      rw [List.length_range'] at hi hj
      rw [List.getElem_range', List.getElem_range']
      have hikj : step * j + w ≤ n := range_index_bound n w step j hwn hstep1 hj
      have hmul : step * i ≤ step * j := Nat.mul_le_mul_left _ (le_of_lt hij)
      have hiki : step * i + w ≤ n := by omega
      obtain ⟨hsi, -⟩ := windowFeature_times msqrt data.samples (0 + step * i) w
        (by omega) (by omega)
      obtain ⟨hsj, -⟩ := windowFeature_times msqrt data.samples (0 + step * j) w
        (by omega) (by omega)
      rw [hsi, hsj]
      exact sorted_getD_le data.samples hsort _ _ (by omega) (by omega)

/-- Claim C10: under the precondition that the batch's samples are
non-decreasing in timestamp, every emitted segment has
`start_time ≤ end_time`, a label from the closed 7-label set, and
confidence in `[0, 1]`, and segments are emitted in non-decreasing order of
`start_time`. -/
theorem C10_segment_invariants (msqrt : ℚ → ℚ) (data : AccelerationData)
    (segs : List ActivitySegment)
    (hsort : data.samples.Pairwise (fun a b => a.timestamp ≤ b.timestamp))
    (hdet : detect_activity_segments msqrt data = .ok segs) :
    (∀ s ∈ segs, s.start_time ≤ s.end_time ∧ 0 ≤ s.confidence ∧ s.confidence ≤ 1 ∧
      s.activity_type ∈ get_supported_activity_types) ∧
    segs.Pairwise (fun s t => s.start_time ≤ t.start_time) := by
  unfold detect_activity_segments at hdet
  rcases hex : extract_features msqrt data with e | fs
  · rw [hex] at hdet
    exact Except.noConfusion hdet
  · rw [hex] at hdet
    have hsegs := (Except.ok.injEq _ _).mp hdet
    subst hsegs
    obtain ⟨hf1, hf2⟩ := extract_sorted_facts msqrt data fs hsort hex
    exact segmentsOfFeatures_good msqrt data fs hf1 hf2

/-- Evaluation of extraction on the two-sample batch: one window covering
both samples. -/
lemma extract_two_eval : extract_features idQ twoSampleBatch
    = .ok [windowFeature idQ twoSampleBatch.samples] := by
  rw [extract_features_ok idQ twoSampleBatch (by decide)]
  norm_num [twoSampleBatch, List.range']

lemma windowFeature_two_eval : windowFeature idQ twoSampleBatch.samples = fvStanding := by
  norm_num [windowFeature, twoSampleBatch, fvStanding, meanQ, varQ, idQ]

/-- Evaluation of segment detection on the two-sample batch: one STANDING
segment over `[0, 1]`. -/
lemma detect_two_eval : detect_activity_segments idQ twoSampleBatch
    = .ok [finalSegment idQ twoSampleBatch ActivityType.STANDING 0 1] := by
  unfold detect_activity_segments
  rw [extract_two_eval, windowFeature_two_eval]
  simp only [segmentsOfFeatures, List.isEmpty_cons, Bool.false_eq_true, if_false,
    codeLoop, classify_fvStanding]
  norm_num [fvStanding]
  simp

/-- Witness for C10: the sorted two-sample batch yields one well-formed
segment. -/
theorem C10_segment_invariants_witness :
    twoSampleBatch.samples.Pairwise (fun a b => a.timestamp ≤ b.timestamp) ∧
    detect_activity_segments idQ twoSampleBatch
      = .ok [finalSegment idQ twoSampleBatch ActivityType.STANDING 0 1] ∧
    (∀ s ∈ [finalSegment idQ twoSampleBatch ActivityType.STANDING 0 1],
      s.start_time ≤ s.end_time ∧ 0 ≤ s.confidence ∧ s.confidence ≤ 1 ∧
      s.activity_type ∈ get_supported_activity_types) ∧
    ([finalSegment idQ twoSampleBatch ActivityType.STANDING 0 1]).Pairwise
      (fun s t => s.start_time ≤ t.start_time) := by
  have hs : twoSampleBatch.samples.Pairwise (fun a b => a.timestamp ≤ b.timestamp) := by
    norm_num [twoSampleBatch, List.pairwise_cons]
  refine ⟨hs, detect_two_eval, ?_⟩
  exact C10_segment_invariants idQ twoSampleBatch
    [finalSegment idQ twoSampleBatch ActivityType.STANDING 0 1] hs detect_two_eval

/-! Development for claim C7: the dominant-activity selector. -/

/-- Lookup in the insertion-ordered duration dictionary. -/
def lookupDur : List (ActivityType × ℚ) → ActivityType → Option ℚ
  | [], _ => none
  | (a, x) :: rest, t => if a = t then some x else lookupDur rest t

lemma updateDur_keys (acc : List (ActivityType × ℚ)) (t : ActivityType) (d : ℚ) :
    (updateDur acc t d).map Prod.fst =
      if t ∈ acc.map Prod.fst then acc.map Prod.fst else acc.map Prod.fst ++ [t] := by
  induction acc with
  | nil => simp [updateDur]
  | cons p rest ih =>
    obtain ⟨a, x⟩ := p
    by_cases h : a = t
    · subst h
      simp [updateDur]
    · simp only [updateDur, if_neg h, List.map_cons, ih]
      have : (t ∈ a :: rest.map Prod.fst) ↔ (t ∈ rest.map Prod.fst) := by
        simp [List.mem_cons, Ne.symm h, eq_comm]
      by_cases h2 : t ∈ rest.map Prod.fst <;> simp_all

lemma updateDur_lookup_self (acc : List (ActivityType × ℚ)) (t : ActivityType) (d : ℚ) :
    lookupDur (updateDur acc t d) t = some ((lookupDur acc t).getD 0 + d) := by
  induction acc with
  | nil => simp [updateDur, lookupDur]
  | cons p rest ih =>
    obtain ⟨a, x⟩ := p
    by_cases h : a = t
    · subst h
      simp [updateDur, lookupDur, add_comm]
    · simp [updateDur, lookupDur, h, ih]

lemma updateDur_lookup_ne (acc : List (ActivityType × ℚ)) (t u : ActivityType) (d : ℚ)
    (hne : u ≠ t) :
    lookupDur (updateDur acc t d) u = lookupDur acc u := by
  induction acc with
  | nil => simp [updateDur, lookupDur, Ne.symm hne]
  | cons p rest ih =>
    obtain ⟨a, x⟩ := p
    by_cases h : a = t
    · subst h
      simp [updateDur, lookupDur, Ne.symm hne]
    · by_cases h2 : a = u
      · subst h2
        simp [updateDur, lookupDur, h]
      · simp [updateDur, lookupDur, h, h2, ih]

lemma mem_keys_iff_lookup (acc : List (ActivityType × ℚ)) (t : ActivityType) :
    t ∈ acc.map Prod.fst ↔ ∃ v, lookupDur acc t = some v := by
  induction acc with
  | nil => simp [lookupDur]
  | cons p rest ih =>
    obtain ⟨a, x⟩ := p
    by_cases h : a = t
    · subst h
      simp [lookupDur]
    · simp [lookupDur, h, ih, eq_comm, Ne.symm h]

lemma pair_mem_iff_lookup (acc : List (ActivityType × ℚ)) (t : ActivityType) (v : ℚ)
    (hnd : (acc.map Prod.fst).Nodup) :
    (t, v) ∈ acc ↔ lookupDur acc t = some v := by
  induction acc with
  | nil => simp [lookupDur]
  | cons p rest ih =>
    obtain ⟨a, x⟩ := p
    rw [List.map_cons] at hnd
    obtain ⟨ha, hrest⟩ := List.pairwise_cons.mp hnd
    by_cases h : a = t
    · subst h
      constructor
      · intro hmem
        rcases List.mem_cons.mp hmem with heq | hmem2
        · have hv : v = x := congrArg Prod.snd heq
          simp [lookupDur, hv]
        · exact absurd (List.mem_map.mpr ⟨(a, v), hmem2, rfl⟩)
            (fun hc => ha a hc rfl)
      · intro hl
        have hv : x = v := Option.some_inj.mp (by simpa [lookupDur] using hl)
        exact List.mem_cons.mpr (Or.inl (by rw [hv]))
    · have h' : t ≠ a := fun he => h he.symm
      simp only [lookupDur, if_neg h, List.mem_cons, Prod.mk.injEq]
      rw [← ih hrest]
      constructor
      · rintro (⟨rfl, -⟩ | hmem)
        · exact absurd rfl h'
        · exact hmem
      · exact fun hmem => Or.inr hmem

lemma duration_by_type_snoc (L : List ActivitySegment) (s : ActivitySegment) :
    duration_by_type (L ++ [s])
      = updateDur (duration_by_type L) s.activity_type (durationOf s) := by
  unfold duration_by_type
  rw [List.foldl_append]
  rfl

lemma totalDur_snoc (L : List ActivitySegment) (s : ActivitySegment) (t : ActivityType) :
    totalDur (L ++ [s]) t
      = totalDur L t + (if s.activity_type = t then durationOf s else 0) := by
  unfold totalDur
  rw [List.filter_append, List.map_append, List.sum_append]
  by_cases h : s.activity_type = t <;> simp [h]

lemma totalDur_of_not_mem (L : List ActivitySegment) (t : ActivityType)
    (h : t ∉ L.map (·.activity_type)) : totalDur L t = 0 := by
  unfold totalDur
  have : L.filter (fun s => decide (s.activity_type = t)) = [] := by
    rw [List.filter_eq_nil_iff]
    intro s hs
    simp only [decide_eq_true_eq]
    exact fun he => h (List.mem_map.mpr ⟨s, hs, he⟩)
  rw [this]
  simp

/-- Value characterization of the duration dictionary: looking up a label
gives the total duration of its segments, or nothing if it never occurs. -/
lemma lookup_duration_by_type (L : List ActivitySegment) (t : ActivityType) :
    lookupDur (duration_by_type L) t
      = if t ∈ L.map (·.activity_type) then some (totalDur L t) else none := by
  induction L using List.reverseRecOn with
  | nil => simp [duration_by_type, lookupDur, totalDur]
  | append_singleton M s ih =>
    rw [duration_by_type_snoc]
    by_cases h : s.activity_type = t
    · subst h
      rw [updateDur_lookup_self, ih]
      by_cases hm : s.activity_type ∈ M.map (·.activity_type)
      · simp [hm, totalDur_snoc]
      · simp [hm, totalDur_snoc, totalDur_of_not_mem M _ hm]
    · have h' : t ≠ s.activity_type := fun he => h he.symm
      rw [updateDur_lookup_ne _ _ _ _ h', ih]
      by_cases hm : t ∈ M.map (·.activity_type) <;>
        simp [hm, h, h', totalDur_snoc]

/-- The dictionary keys are exactly the labels occurring in the segment
list. -/
lemma mem_keys_duration_by_type (L : List ActivitySegment) (t : ActivityType) :
    t ∈ (duration_by_type L).map Prod.fst ↔ t ∈ L.map (·.activity_type) := by
  rw [mem_keys_iff_lookup, lookup_duration_by_type]
  by_cases h : t ∈ L.map (·.activity_type) <;> simp [h]

lemma nodup_keys_duration_by_type (L : List ActivitySegment) :
    ((duration_by_type L).map Prod.fst).Nodup := by
  induction L using List.reverseRecOn with
  | nil => simp [duration_by_type]
  | append_singleton M s ih =>
    rw [duration_by_type_snoc, updateDur_keys]
    by_cases h : s.activity_type ∈ (duration_by_type M).map Prod.fst
    · simpa [h] using ih
    · rw [if_neg h, List.nodup_append]
      exact ⟨ih, List.nodup_singleton _, by simpa using h⟩

/-- Dictionary keys appear in order of first occurrence: earlier keys have
strictly smaller first-occurrence index in the label sequence. -/
lemma keys_order_duration_by_type (L : List ActivitySegment) :
    ((duration_by_type L).map Prod.fst).Pairwise
      (fun t u => (L.map (·.activity_type)).indexOf t
        < (L.map (·.activity_type)).indexOf u) := by
  induction L using List.reverseRecOn with
  | nil => simp [duration_by_type]
  | append_singleton M s ih =>
    rw [duration_by_type_snoc, updateDur_keys]
    by_cases h : s.activity_type ∈ (duration_by_type M).map Prod.fst
    · rw [if_pos h]
      refine ih.imp_of_mem ?_
      intro a b ha hb hr
      have haM : a ∈ M.map (·.activity_type) := (mem_keys_duration_by_type M a).mp ha
      have hbM : b ∈ M.map (·.activity_type) := (mem_keys_duration_by_type M b).mp hb
      rw [List.map_append, List.indexOf_append_of_mem haM,
        List.indexOf_append_of_mem hbM]
      exact hr
    · rw [if_neg h, List.pairwise_append]
      have hsM : s.activity_type ∉ M.map (·.activity_type) :=
        fun hm => h ((mem_keys_duration_by_type M _).mpr hm)
      refine ⟨?_, List.pairwise_singleton _ _, ?_⟩
      · refine ih.imp_of_mem ?_
        intro a b ha hb hr
        have haM : a ∈ M.map (·.activity_type) := (mem_keys_duration_by_type M a).mp ha
        have hbM : b ∈ M.map (·.activity_type) := (mem_keys_duration_by_type M b).mp hb
        rw [List.map_append, List.indexOf_append_of_mem haM,
          List.indexOf_append_of_mem hbM]
        exact hr
      · intro a ha b hb
        rcases List.mem_singleton.mp hb with rfl
        have haM : a ∈ M.map (·.activity_type) := (mem_keys_duration_by_type M a).mp ha
        rw [List.map_append, List.indexOf_append_of_mem haM,
          List.indexOf_append_of_not_mem hsM]
        have := List.indexOf_lt_length.mpr haM
        simp only [List.map_cons, List.map_nil, List.indexOf_cons_self]
        omega

/-- Python's `max` with a key keeps the first item realizing the maximum:
the fold result splits its input into a strictly-smaller prefix and a
no-larger suffix. -/
lemma foldl_pyMax_split :
    ∀ (l : List (ActivityType × ℚ)) (p0 : ActivityType × ℚ),
      ∃ pre post, p0 :: l = pre ++ (l.foldl pyMax2 p0) :: post ∧
        (∀ x ∈ pre, x.2 < (l.foldl pyMax2 p0).2) ∧
        (∀ x ∈ post, x.2 ≤ (l.foldl pyMax2 p0).2) := by
  intro l
  induction l with
  | nil =>
    intro p0
    exact ⟨[], [], rfl, by simp, by simp⟩
  | cons q l ih =>
    intro p0
    rw [List.foldl_cons]
    by_cases h : p0.2 < q.2
    · rw [show pyMax2 p0 q = q from if_pos h]
      obtain ⟨pre, post, hsplit, hpre, hpost⟩ := ih q
      cases pre with
      | nil =>
        rw [List.nil_append] at hsplit
        have h1 : q = l.foldl pyMax2 q := ((List.cons.injEq _ _ _ _).mp hsplit).1
        refine ⟨[p0], post, ?_, ?_, hpost⟩
        · rw [List.singleton_append, hsplit]
        · intro x hx
          have hxp : x = p0 := List.mem_singleton.mp hx
          rw [hxp, ← h1]
          exact h
      | cons y pre' =>
        rw [List.cons_append] at hsplit
        have h1 : q = y := ((List.cons.injEq _ _ _ _).mp hsplit).1
        have h2 : l = pre' ++ l.foldl pyMax2 q :: post :=
          ((List.cons.injEq _ _ _ _).mp hsplit).2
        refine ⟨p0 :: y :: pre', post, ?_, ?_, hpost⟩
        · rw [List.cons_append, List.cons_append, ← h2, ← h1]
        · intro x hx
          have hy : y.2 < (l.foldl pyMax2 q).2 := hpre y (List.mem_cons_self _ _)
          rcases List.mem_cons.mp hx with hxp | hx2
          · rw [hxp]
            rw [← h1] at hy
            exact lt_trans h hy
          · rcases List.mem_cons.mp hx2 with hxy | hx3
            · rw [hxy]; exact hy
            · exact hpre x (List.mem_cons_of_mem _ hx3)
    · rw [show pyMax2 p0 q = p0 from if_neg h]
      obtain ⟨pre, post, hsplit, hpre, hpost⟩ := ih p0
      cases pre with
      | nil =>
        rw [List.nil_append] at hsplit
        have h1 : p0 = l.foldl pyMax2 p0 := ((List.cons.injEq _ _ _ _).mp hsplit).1
        have h2 : l = post := ((List.cons.injEq _ _ _ _).mp hsplit).2
        refine ⟨[], q :: post, ?_, by simp, ?_⟩
        · rw [List.nil_append, ← h1, h2]
        · intro x hx
          rcases List.mem_cons.mp hx with hxq | hx2
          · rw [hxq, ← h1]
            exact not_lt.mp h
          · exact hpost x hx2
      | cons y pre' =>
        rw [List.cons_append] at hsplit
        have h1 : p0 = y := ((List.cons.injEq _ _ _ _).mp hsplit).1
        have h2 : l = pre' ++ l.foldl pyMax2 p0 :: post :=
          ((List.cons.injEq _ _ _ _).mp hsplit).2
        refine ⟨p0 :: q :: pre', post, ?_, ?_, hpost⟩
        · rw [List.cons_append, List.cons_append, ← h2]
        · intro x hx
          have hy : y.2 < (l.foldl pyMax2 p0).2 := hpre y (List.mem_cons_self _ _)
          rw [← h1] at hy
          rcases List.mem_cons.mp hx with hxp | hx2
          · rw [hxp]; exact hy
          · rcases List.mem_cons.mp hx2 with hxq | hx3
            · rw [hxq]
              exact lt_of_le_of_lt (not_lt.mp h) hy
            · exact hpre x (List.mem_cons_of_mem _ hx3)

/-- First occurrence index bounds any occurrence. -/
lemma indexOf_le_of_get [DecidableEq α] :
    ∀ (l : List α) (i : ℕ) (hi : i < l.length), l.indexOf (l.get ⟨i, hi⟩) ≤ i := by
  intro l
  induction l with
  | nil => intro i hi; simp at hi
  | cons b l ih =>
    intro i hi
    cases i with
    | zero => simp [List.indexOf_cons_self]
    | succ i =>
      have hi' : i < l.length := by simpa using hi
      have hget : (b :: l).get ⟨i + 1, hi⟩ = l.get ⟨i, hi'⟩ := rfl
      rw [hget]
      by_cases hb : b = l.get ⟨i, hi'⟩
      · rw [List.indexOf_cons_eq _ hb]
        omega
      · rw [List.indexOf_cons_ne _ hb]
        exact Nat.succ_le_succ (ih i hi')

lemma getD_eq_get (l : List α) (i : ℕ) (hi : i < l.length) (d : α) :
    l.getD i d = l.get ⟨i, hi⟩ := by
  rw [List.getD_eq_getElem?_getD, List.getElem?_eq_getElem hi]
  simp [List.get_eq_getElem]

/-- Claim C7: the dominant-activity selector returns `UNKNOWN` on the empty
segment sequence; on a non-empty sequence it returns a label whose summed
duration (over all segments carrying it) is at least that of every other
label present, and the tie-break is deterministic: the returned label is
the label of the first segment (in iteration order) whose label's summed
duration is maximal. -/
theorem C7_dominant_activity (segs : List ActivitySegment) :
    (segs = [] → determine_dominant_activity segs = ActivityType.UNKNOWN) ∧
    (segs ≠ [] →
      (∀ s ∈ segs, totalDur segs s.activity_type
          ≤ totalDur segs (determine_dominant_activity segs)) ∧
      ∃ i, i < segs.length ∧
        (segs.getD i default).activity_type = determine_dominant_activity segs ∧
        (∀ s ∈ segs, totalDur segs s.activity_type
            ≤ totalDur segs ((segs.getD i default).activity_type)) ∧
        ∀ j, j < i → ¬ (∀ s ∈ segs, totalDur segs s.activity_type
            ≤ totalDur segs ((segs.getD j default).activity_type))) := by
  classical
  constructor
  · intro h
    subst h
    rfl
  · intro hne
    obtain ⟨s0, hs0⟩ := List.exists_mem_of_ne_nil segs hne
    have hkne : duration_by_type segs ≠ [] := by
      intro hnil
      have hh := (mem_keys_duration_by_type segs s0.activity_type).mpr
        (List.mem_map.mpr ⟨s0, hs0, rfl⟩)
      rw [hnil] at hh
      simp at hh
    rcases hacc : duration_by_type segs with _ | ⟨p, restAcc⟩
    · exact absurd hacc hkne
    have hdom : determine_dominant_activity segs = (restAcc.foldl pyMax2 p).1 := by
      unfold determine_dominant_activity
      rw [if_neg (by simpa [List.isEmpty_iff] using hne), hacc]
    obtain ⟨pre, post, hsplit, hpre, hpost⟩ := foldl_pyMax_split restAcc p
    set r := restAcc.foldl pyMax2 p with hrdef
    have hrmem : r ∈ duration_by_type segs := by
      rw [hacc, hsplit]
      exact List.mem_append_right _ (List.mem_cons_self _ _)
    have hnd := nodup_keys_duration_by_type segs
    have hpair_r : (r.1, r.2) ∈ duration_by_type segs := by simpa using hrmem
    have hlook_r : lookupDur (duration_by_type segs) r.1 = some r.2 :=
      (pair_mem_iff_lookup _ _ _ hnd).mp hpair_r
    have hr1mem : r.1 ∈ segs.map (·.activity_type) :=
      (mem_keys_duration_by_type segs r.1).mp (List.mem_map.mpr ⟨r, hrmem, rfl⟩)
    have hrval : r.2 = totalDur segs r.1 := by
      rw [lookup_duration_by_type, if_pos hr1mem] at hlook_r
      exact (Option.some_inj.mp hlook_r).symm
    have hmax_pairs : ∀ x ∈ duration_by_type segs, x.2 ≤ r.2 := by
      intro x hx
      rw [hacc, hsplit] at hx
      rcases List.mem_append.mp hx with hx1 | hx2
      · exact (hpre x hx1).le
      · rcases List.mem_cons.mp hx2 with hxr | hx3
        · exact le_of_eq (congrArg Prod.snd hxr)
        · exact hpost x hx3
    have hmaxseg : ∀ s ∈ segs, totalDur segs s.activity_type ≤ totalDur segs r.1 := by
      intro s hs
      have hmem : s.activity_type ∈ segs.map (·.activity_type) :=
        List.mem_map.mpr ⟨s, hs, rfl⟩
      have hlook : lookupDur (duration_by_type segs) s.activity_type
          = some (totalDur segs s.activity_type) := by
        rw [lookup_duration_by_type, if_pos hmem]
      have hpair : (s.activity_type, totalDur segs s.activity_type)
          ∈ duration_by_type segs := (pair_mem_iff_lookup _ _ _ hnd).mpr hlook
      have hle := hmax_pairs _ hpair
      rw [hrval] at hle
      exact hle
    refine ⟨by rw [hdom]; exact hmaxseg, ?_⟩
    have hi1len : (segs.map (·.activity_type)).indexOf r.1 < segs.length := by
      have := List.indexOf_lt_length.mpr hr1mem
      simpa using this
    have hlab_i1 : (segs.getD ((segs.map (·.activity_type)).indexOf r.1)
        default).activity_type = r.1 := by
      have hmaplen : (segs.map (·.activity_type)).indexOf r.1
          < (segs.map (·.activity_type)).length := List.indexOf_lt_length.mpr hr1mem
      have hg := List.getElem_indexOf hmaplen
      rw [List.getElem_map] at hg
      rw [getD_eq_get _ _ hi1len, List.get_eq_getElem]
      exact hg
    have hQex : ∃ j, j < segs.length ∧
        totalDur segs ((segs.getD j default).activity_type) = totalDur segs r.1 :=
      ⟨_, hi1len, by rw [hlab_i1]⟩
    set i := Nat.find hQex with hidef
    obtain ⟨hilen, hitot⟩ := Nat.find_spec hQex
    have hieq : (segs.getD i default).activity_type = r.1 := by
      by_contra hteq
      have ht'mem : (segs.getD i default).activity_type ∈ segs.map (·.activity_type) := by
        refine List.mem_map.mpr ⟨segs.getD i default, ?_, rfl⟩
        rw [getD_eq_get _ _ hilen]
        exact List.get_mem _ _ _
      have hlookt' : lookupDur (duration_by_type segs)
          ((segs.getD i default).activity_type)
          = some (totalDur segs ((segs.getD i default).activity_type)) := by
        rw [lookup_duration_by_type, if_pos ht'mem]
      have hpairt' : ((segs.getD i default).activity_type,
          totalDur segs ((segs.getD i default).activity_type))
          ∈ duration_by_type segs := (pair_mem_iff_lookup _ _ _ hnd).mpr hlookt'
      rw [hitot, ← hrval] at hpairt'
      rw [hacc, hsplit] at hpairt'
      rcases List.mem_append.mp hpairt' with hx1 | hx2
      · exact absurd (hpre _ hx1) (lt_irrefl r.2)
      · rcases List.mem_cons.mp hx2 with hxr | hx3
        · exact hteq (congrArg Prod.fst hxr)
        · have hkeys := keys_order_duration_by_type segs
          rw [hacc, hsplit, List.map_append, List.map_cons] at hkeys
          have hordered := (List.pairwise_append.mp hkeys).2.1
          have hrel := (List.pairwise_cons.mp hordered).1
            ((segs.getD i default).activity_type) (List.mem_map.mpr ⟨_, hx3, rfl⟩)
          have hidx_le : (segs.map (·.activity_type)).indexOf
              ((segs.getD i default).activity_type) ≤ i := by
            have hmi : i < (segs.map (·.activity_type)).length := by
              rw [List.length_map]
              exact hilen
            have hle := indexOf_le_of_get (segs.map (·.activity_type)) i hmi
            rw [List.get_eq_getElem, List.getElem_map] at hle
            rw [getD_eq_get _ _ hilen, List.get_eq_getElem]
            exact hle
          have hile : i ≤ (segs.map (·.activity_type)).indexOf r.1 :=
            Nat.find_min' hQex ⟨hi1len, by rw [hlab_i1]⟩
          omega
    refine ⟨i, hilen, by rw [hdom]; exact hieq, ?_, ?_⟩
    · intro s hs
      rw [hieq]
      exact hmaxseg s hs
    · intro j hj hPj
      have hjlen : j < segs.length := lt_trans hj hilen
      have hjmem : segs.getD j default ∈ segs := by
        rw [getD_eq_get _ _ hjlen]
        exact List.get_mem _ _ _
      have hle1 : totalDur segs ((segs.getD j default).activity_type)
          ≤ totalDur segs r.1 := hmaxseg _ hjmem
      obtain ⟨sstar, hsstar, hsstarlab⟩ := List.mem_map.mp hr1mem
      have hle2 := hPj sstar hsstar
      rw [hsstarlab] at hle2
      exact (Nat.find_min hQex hj) ⟨hjlen, le_antisymm hle1 hle2⟩

/-- Concrete RUNNING segment of duration 10 seconds. -/
def segRun : ActivitySegment :=
  { start_time := 0, end_time := 10, activity_type := ActivityType.RUNNING,
    confidence := 0.85, metrics := zeroMetrics }

/-- Concrete WALKING segment of duration 10 seconds. -/
def segWalk : ActivitySegment :=
  { start_time := 10, end_time := 20, activity_type := ActivityType.WALKING,
    confidence := 0.9, metrics := zeroMetrics }

/-- Evaluation of the selector on the tied pair: both labels total 10
seconds and the first one wins. -/
lemma dominant_tie_eval :
    determine_dominant_activity [segRun, segWalk] = ActivityType.RUNNING := by
  norm_num [determine_dominant_activity, duration_by_type, updateDur, durationOf,
    pyMax2, segRun, segWalk]
  simp [pyMax2]

/-- Witness for C7: on the tied two-segment list the selector is maximal and
picks the label of the first segment reaching the maximum. -/
theorem C7_dominant_activity_witness :
    ([segRun, segWalk] : List ActivitySegment) ≠ [] ∧
    determine_dominant_activity [segRun, segWalk] = ActivityType.RUNNING ∧
    (∀ s ∈ [segRun, segWalk], totalDur [segRun, segWalk] s.activity_type
        ≤ totalDur [segRun, segWalk] (determine_dominant_activity [segRun, segWalk])) ∧
    ∃ i, i < ([segRun, segWalk] : List ActivitySegment).length ∧
      (([segRun, segWalk] : List ActivitySegment).getD i default).activity_type
        = determine_dominant_activity [segRun, segWalk] ∧
      (∀ s ∈ [segRun, segWalk], totalDur [segRun, segWalk] s.activity_type
          ≤ totalDur [segRun, segWalk]
            ((([segRun, segWalk] : List ActivitySegment).getD i default).activity_type)) ∧
      ∀ j, j < i → ¬ (∀ s ∈ [segRun, segWalk], totalDur [segRun, segWalk] s.activity_type
          ≤ totalDur [segRun, segWalk]
            ((([segRun, segWalk] : List ActivitySegment).getD j default).activity_type)) :=
  ⟨by simp, dominant_tie_eval,
    (C7_dominant_activity [segRun, segWalk]).2 (by simp)⟩

end ARS
